import Mathlib

/-!
Shallow embedding of the waitlist-form validation engine of
src/scripts/main.js (the `initFormValidation` IIFE), together with the
surrounding event wiring, and proofs about it.

Strings are modelled as lists of characters (`Str`), so that JavaScript
string operations (trim, regex matching, length, emptiness) become
structural list operations.
-/

/-- Str models a JavaScript string as a list of characters. -/
abbrev Str := List Char

/-- Mk turns a Lean string literal into the `Str` model. -/
def Str.mk (s : String) : Str := s.data

/-- Characters matched by the JavaScript regex class `\s` (and removed by
`String.prototype.trim`): WhiteSpace plus LineTerminator code points. -/
def jsWhitespace (c : Char) : Bool :=
  c = '\t' || c = '\n' || c = '\x0b' || c = '\x0c' || c = '\r' || c = ' ' ||
  c = '\u00A0' || c = '\u1680' ||
  ('\u2000' ≤ c && c ≤ '\u200A') ||
  c = '\u2028' || c = '\u2029' || c = '\u202F' || c = '\u205F' ||
  c = '\u3000' || c = '\uFEFF'

/-- Trim models JavaScript `String.prototype.trim`: strip leading and
trailing `jsWhitespace` characters. -/
def trim (l : Str) : Str :=
  ((l.dropWhile jsWhitespace).reverse.dropWhile jsWhitespace).reverse

/-- Characters matched by the regex class `[^\s@]` used in `validateEmail`. -/
def isEmailChar (c : Char) : Bool := !jsWhitespace c && c ≠ '@'

/-- ValidateEmail models `validateEmail` of src/scripts/main.js: the test
of the anchored regex `^[^\s@]+@[^\s@]+\.[^\s@]+$` on the given string.
The class `[^\s@]` cannot match `@`, so the pattern letter `@` must match
the first `@` of the string; the remainder must consist of `[^\s@]`
characters and contain a `.` that is neither its first nor its last
character. -/
def validateEmail (l : Str) : Bool :=
  let a := l.takeWhile (fun c => c ≠ '@')
  match l.dropWhile (fun c => c ≠ '@') with
  | [] => false
  | _ :: r =>
    !a.isEmpty && a.all isEmailChar &&
    r.all isEmailChar && (r.drop 1).dropLast.any (fun c => c = '.')

/-- EmailMatches is the language of the regex `^[^\s@]+@[^\s@]+\.[^\s@]+$`
stated declaratively: a nonempty `[^\s@]` run, the letter `@`, a nonempty
run, the letter `.`, a nonempty run. -/
def emailMatches (l : Str) : Prop :=
  ∃ a b c : Str,
    l = a ++ '@' :: (b ++ '.' :: c) ∧
    a ≠ [] ∧ a.all isEmailChar ∧
    b ≠ [] ∧ b.all isEmailChar ∧
    c ≠ [] ∧ c.all isEmailChar

/-- ValidationRules models one `rules` record of the `fieldValidations`
table: absent JavaScript properties are `none` / `false`. -/
structure ValidationRules where
  required : Bool
  minLength : Option Nat
  email : Bool
  requiredMessage : Option Str
  minLengthMessage : Option Str
  emailMessage : Option Str
deriving Repr, DecidableEq

/-- OrDefault models the JavaScript `||` fallback on message strings: an
absent property and the empty string are both falsy. -/
def orDefault (m : Option Str) (d : Str) : Str :=
  match m with
  | none => d
  | some s => if s.isEmpty then d else s

/-- MinLengthDefault is the template default
`Minimum n characters required` built for a given bound. -/
def minLengthDefault (n : Nat) : Str :=
  Str.mk "Minimum " ++ Nat.toDigits 10 n ++ Str.mk " characters required"

/-- RequiredDefault is the literal default of the required check. -/
def requiredDefault : Str := Str.mk "This field is required"

/-- EmailDefault is the literal default of the email-format check. -/
def emailDefault : Str := Str.mk "Please enter a valid email address"

/-- MinLengthFails models the guard
`validationRules.minLength && value.length < validationRules.minLength`:
an absent `minLength` and the number 0 are both falsy. -/
def minLengthFails (rules : ValidationRules) (value : Str) : Bool :=
  match rules.minLength with
  | none => false
  | some n => decide (n ≠ 0) && decide (value.length < n)

/-- ValidateFieldMessage models the `errorMessage` computation of
`validateField`: trim the value, then the `if / else if / else if` chain
over required, minimum length and email format, producing the empty
string when every applicable check passes. -/
def validateFieldMessage (rules : ValidationRules) (raw : Str) : Str :=
  let value := trim raw
  if rules.required && value.isEmpty then
    orDefault rules.requiredMessage requiredDefault
  else if minLengthFails rules value then
    orDefault rules.minLengthMessage (minLengthDefault (rules.minLength.getD 0))
  else if rules.email && !validateEmail value then
    orDefault rules.emailMessage emailDefault
  else
    []

/-- FieldId enumerates the five waitlist-form fields, in the declaration
order of the `fieldValidations` table (which is also the document order
of the corresponding elements). -/
inductive FieldId
  | email
  | name
  | role
  | experience
  | goal
deriving DecidableEq, Repr

/-- FieldOrder is the iteration order of `Object.values(fieldValidations)`:
string-keyed property insertion order. -/
def fieldOrder : List FieldId :=
  [.email, .name, .role, .experience, .goal]

/-- FieldRules is the `rules` component of the `fieldValidations` table of
src/scripts/main.js, one record per field. -/
def fieldRules : FieldId → ValidationRules
  | .email =>
    { required := true, minLength := none, email := true,
      requiredMessage := some (Str.mk "Email address is required"),
      minLengthMessage := none,
      emailMessage := some (Str.mk "Please enter a valid email address") }
  | .name =>
    { required := true, minLength := some 2, email := false,
      requiredMessage := some (Str.mk "Full name is required"),
      minLengthMessage := some (Str.mk "Name must be at least 2 characters"),
      emailMessage := none }
  | .role =>
    { required := true, minLength := none, email := false,
      requiredMessage := some (Str.mk "Current role is required"),
      minLengthMessage := none, emailMessage := none }
  | .experience =>
    { required := true, minLength := none, email := false,
      requiredMessage := some (Str.mk "Please select your years of experience"),
      minLengthMessage := none, emailMessage := none }
  | .goal =>
    { required := true, minLength := none, email := false,
      requiredMessage := some (Str.mk "Please select your primary goal"),
      minLengthMessage := none, emailMessage := none }

/-- TrueStr is the attribute value written by `setAttribute(x, 'true')`. -/
def trueStr : Str := Str.mk "true"

/-- FalseStr is the attribute value written by `setAttribute(x, 'false')`. -/
def falseStr : Str := Str.mk "false"

/-- FieldState models the mutable DOM state of one input/select element
that the engine reads or writes: its current string value, its
`aria-invalid` attribute (`none` = attribute absent, as at page load), and
whether its class list contains `form__input--error`. -/
structure FieldState where
  value : Str
  ariaInvalid : Option Str
  hasErrorClass : Bool
deriving DecidableEq, Repr

/-- FormState models all DOM state the validation engine touches: per
field its element state and the `textContent` of its error element, the
display state of the field containers and the submit control, the
visibility of the success message, whether the success message was
scrolled into view, and which field currently holds input focus. -/
structure FormState where
  fields : FieldId → FieldState
  errors : FieldId → Str
  fieldsHidden : Bool
  submitHidden : Bool
  successVisible : Bool
  successScrolled : Bool
  focused : Option FieldId

/-- ValidateField models `validateField(field, errorElement, rules)`:
compute the error message for the trimmed current value, then either mark
the field invalid (`aria-invalid="true"`, error class added, message
written) and return false, or mark it valid (`aria-invalid="false"`,
error class removed, message cleared) and return true. The source tests
the truthiness of `errorMessage`, i.e. its nonemptiness. -/
def validateField (st : FormState) (f : FieldId) : FormState × Bool :=
  let msg := validateFieldMessage (fieldRules f) ((st.fields f).value)
  if msg.isEmpty then
    ({ st with
        fields := Function.update st.fields f
          { st.fields f with ariaInvalid := some falseStr, hasErrorClass := false },
        errors := Function.update st.errors f [] }, true)
  else
    ({ st with
        fields := Function.update st.fields f
          { st.fields f with ariaInvalid := some trueStr, hasErrorClass := true },
        errors := Function.update st.errors f msg }, false)

/-- FieldMessage is the error message `validateField` computes for field
`f` in state `st`. -/
def fieldMessage (st : FormState) (f : FieldId) : Str :=
  validateFieldMessage (fieldRules f) ((st.fields f).value)

/-- ValidateForm models `validateForm()`: iterate over every binding in
table order, validate each field, and accumulate `isValid` (set to false
whenever a field fails, never set back to true). -/
def validateForm (st : FormState) : FormState × Bool :=
  fieldOrder.foldl
    (fun acc f =>
      let r := validateField acc.1 f
      (r.1, acc.2 && r.2))
    (st, true)

/-- OnFieldBlur models the `blur` listener attached in
`setupRealTimeValidation`: it always validates the field. -/
def onFieldBlur (st : FormState) (f : FieldId) : FormState :=
  (validateField st f).1

/-- OnFieldInput models the `input` listener attached in
`setupRealTimeValidation`: it validates the field only when
`field.getAttribute('aria-invalid') === 'true'`. -/
def onFieldInput (st : FormState) (f : FieldId) : FormState :=
  if (st.fields f).ariaInvalid = some trueStr then (validateField st f).1 else st

/-- SetFieldValue models the browser updating an element value as the
user types or selects, before the `input` event is dispatched. -/
def setFieldValue (st : FormState) (f : FieldId) (v : Str) : FormState :=
  { st with fields := Function.update st.fields f { st.fields f with value := v } }

/-- InputEvent models one keystroke/selection: the value changes, then the
`input` listener runs. -/
def inputEvent (st : FormState) (f : FieldId) (v : Str) : FormState :=
  onFieldInput (setFieldValue st f v) f

/-- FirstInvalidField models `form.querySelector('[aria-invalid="true"]')`:
the first field, in document order, whose `aria-invalid` attribute equals
the string `true`. -/
def firstInvalidField (st : FormState) : Option FieldId :=
  fieldOrder.find? (fun f => decide ((st.fields f).ariaInvalid = some trueStr))

/-- ShowSuccessMessage models `showSuccessMessage()`: hide every
`.form__field` container and the `.form__submit` control, add the
`visible` class to the success element, and scroll it into view. -/
def showSuccessMessage (st : FormState) : FormState :=
  { st with fieldsHidden := true, submitHidden := true,
            successVisible := true, successScrolled := true }

/-- HandleFormSubmit models `handleFormSubmit(e)`: the default action is
always suppressed (`e.preventDefault()` is the first statement; the
returned Bool records this), then the whole form is validated; on failure
focus moves to the first invalid field (if any) and nothing else happens;
on success the success view is shown. -/
def handleFormSubmit (st : FormState) : FormState × Bool :=
  let r := validateForm st
  if r.2 then
    (showSuccessMessage r.1, true)
  else
    (match firstInvalidField r.1 with
     | some f => { r.1 with focused := some f }
     | none => r.1, true)

/-- FormEvent enumerates the user events the engine listens to. -/
inductive FormEvent
  | blur : FieldId → FormEvent
  | input : FieldId → Str → FormEvent
  | submit : FormEvent

/-- Step runs one event through the corresponding handler. -/
def step (st : FormState) : FormEvent → FormState
  | .blur f => onFieldBlur st f
  | .input f v => inputEvent st f v
  | .submit => (handleFormSubmit st).1

/-- Phase is the two-state form lifecycle of the spec. -/
inductive Phase
  | editing
  | submitted
deriving DecidableEq, Repr

/-- PhaseOf reads the observable phase off the DOM state: the form is in
the submitted phase exactly when the success element is visible. -/
def phaseOf (st : FormState) : Phase :=
  if st.successVisible then .submitted else .editing

/-- InitialFormState is the DOM state right after page load, for given
initial field values: no `aria-invalid` attributes, no error classes,
empty error texts, everything visible, nothing focused. -/
def initialFormState (vals : FieldId → Str) : FormState :=
  { fields := fun f => { value := vals f, ariaInvalid := none, hasErrorClass := false },
    errors := fun _ => [],
    fieldsHidden := false, submitHidden := false, successVisible := false,
    successScrolled := false, focused := none }

/-- PageDocument records which of the elements the engine looks up by id
are present in the document at initialization time. -/
structure PageDocument where
  hasForm : Bool
  hasField : FieldId → Bool
  hasErrorElement : FieldId → Bool

/-- InitOutcome is what `initFormValidation` does at load time. -/
inductive InitOutcome
  | warnedNoForm
  | threwTypeError
  | completed
deriving DecidableEq, Repr

/-- InitFormValidation models the `initFormValidation` IIFE at load time:
only the form element is guarded (`if (!form) { console.warn; return; }`);
the field and error elements are fetched with `getElementById` but not
null-checked, and `setupRealTimeValidation` immediately calls
`field.addEventListener` on every field element, which throws a TypeError
on the first missing one. Missing error elements are not dereferenced at
initialization, so they go undetected. -/
def initFormValidation (doc : PageDocument) : InitOutcome :=
  if doc.hasForm = false then .warnedNoForm
  else if (fieldOrder.all fun f => doc.hasField f) = false then .threwTypeError
  else .completed

/-! ### List helper lemmas -/

theorem dropWhile_head_false {α : Type} {p : α → Bool} :
    ∀ {l : List α} {x : α} {xs : List α}, l.dropWhile p = x :: xs → p x = false := by
  intro l
  induction l with
  | nil => intro x xs h; simp [List.dropWhile] at h
  | cons y ys ih =>
    intro x xs h
    by_cases hp : p y = true
    · rw [List.dropWhile_cons_of_pos hp] at h
      exact ih h
    · rw [List.dropWhile_cons_of_neg (by simpa using hp)] at h
      cases h
      simpa using hp

theorem takeWhile_middle {α : Type} (p : α → Bool) :
    ∀ (a : List α) (x : α) (r : List α), (∀ y ∈ a, p y = true) → p x = false →
      (a ++ x :: r).takeWhile p = a ∧ (a ++ x :: r).dropWhile p = x :: r := by
  intro a
  induction a with
  | nil =>
    intro x r _ hx
    constructor
    · simp [List.takeWhile_cons, hx]
    · simp [List.dropWhile_cons, hx]
  | cons y ys ih =>
    intro x r ha hx
    have hy : p y = true := ha y (List.mem_cons_self y ys)
    have hys : ∀ z ∈ ys, p z = true := fun z hz => ha z (List.mem_cons_of_mem y hz)
    obtain ⟨ht, hd⟩ := ih x r hys hx
    constructor
    · simp [List.takeWhile_cons, hy, ht]
    · simp [List.dropWhile_cons, hy, hd]

/-! ### Email regex correctness -/

theorem run_split_iff (r : Str) :
    (r.all isEmailChar = true ∧ '.' ∈ (r.drop 1).dropLast) ↔
    ∃ b c : Str, r = b ++ '.' :: c ∧ b ≠ [] ∧ b.all isEmailChar = true ∧
      c ≠ [] ∧ c.all isEmailChar = true := by
  constructor
  · rintro ⟨hall, hmem⟩
    obtain ⟨s, t, hst⟩ := List.append_of_mem hmem
    cases r with
    | nil => simp at hst
    | cons x r1 =>
      rcases List.eq_nil_or_concat r1 with h0 | ⟨r2, z, hr2⟩
      · subst h0
        simp at hst
      · rw [List.concat_eq_append] at hr2
        subst hr2
        have hst2 : r2 = s ++ '.' :: t := by
          simpa [List.dropLast_concat] using hst
        subst hst2
        simp only [List.all_cons, List.all_append, Bool.and_eq_true] at hall
        refine ⟨x :: s, t ++ [z], by simp, by simp, ?_, by simp, ?_⟩
        · simp only [List.all_cons, Bool.and_eq_true]
          tauto
        · simp only [List.all_append, List.all_cons, List.all_nil, Bool.and_eq_true, and_true]
          tauto
  · rintro ⟨b, c, hr, hb, hball, hc, hcall⟩
    subst hr
    constructor
    · simp only [List.all_append, List.all_cons, Bool.and_eq_true]
      exact ⟨hball, by decide, hcall⟩
    · obtain ⟨y, b1, hb1⟩ : ∃ y b1, b = y :: b1 := by
        cases b with
        | nil => exact absurd rfl hb
        | cons y b1 => exact ⟨y, b1, rfl⟩
      obtain ⟨c1, z, hc1⟩ : ∃ c1 z, c = c1 ++ [z] := by
        rcases List.eq_nil_or_concat c with h | ⟨c1, z, h⟩
        · exact absurd h hc
        · exact ⟨c1, z, by simpa [List.concat_eq_append] using h⟩
      subst hb1
      subst hc1
      have hshape : (y :: b1) ++ '.' :: (c1 ++ [z]) = y :: ((b1 ++ '.' :: c1) ++ [z]) := by
        simp
      rw [hshape]
      simp only [List.drop_succ_cons, List.drop_zero, List.dropLast_concat]
      simp

theorem validateEmail_eq_of_cons {l : Str} {d : Char} {r : Str}
    (hd : l.dropWhile (fun c => decide (c ≠ '@')) = d :: r) :
    validateEmail l =
      (!(l.takeWhile (fun c => decide (c ≠ '@'))).isEmpty &&
        (l.takeWhile (fun c => decide (c ≠ '@'))).all isEmailChar &&
        r.all isEmailChar &&
        (r.drop 1).dropLast.any (fun c => decide (c = '.'))) := by
  unfold validateEmail
  rw [hd]

theorem validateEmail_iff (l : Str) : validateEmail l = true ↔ emailMatches l := by
  constructor
  · intro h
    cases hd : l.dropWhile (fun c => decide (c ≠ '@')) with
    | nil =>
      unfold validateEmail at h
      rw [hd] at h
      simp at h
    | cons d r =>
      have hdat : d = '@' := by
        have := dropWhile_head_false hd
        simpa using this
      subst hdat
      rw [validateEmail_eq_of_cons hd] at h
      simp only [Bool.and_eq_true, Bool.not_eq_true', List.any_eq_true,
        decide_eq_true_eq, exists_eq_right] at h
      obtain ⟨⟨⟨hne, haall⟩, hrall⟩, hdot⟩ := h
      obtain ⟨b, c, hrbc, hb, hball, hc, hcall⟩ := (run_split_iff r).mp ⟨hrall, hdot⟩
      have hsplit := (List.takeWhile_append_dropWhile (fun c : Char => decide (c ≠ '@')) l).symm
      rw [hd] at hsplit
      refine ⟨l.takeWhile (fun c => decide (c ≠ '@')), b, c, ?_, ?_, haall, hb, hball, hc, hcall⟩
      · rw [hrbc] at hsplit
        exact hsplit
      · intro h0
        rw [h0] at hne
        simp at hne
  · rintro ⟨a, b, c, hl, ha, haall, hb, hball, hc, hcall⟩
    have hmem : ∀ y ∈ a, (fun c : Char => decide (c ≠ '@')) y = true := by
      intro y hy
      have hy2 := List.all_eq_true.mp haall y hy
      simp only [isEmailChar, Bool.and_eq_true, decide_eq_true_eq] at hy2
      simpa using hy2.2
    have hat : (fun c : Char => decide (c ≠ '@')) '@' = false := by simp
    obtain ⟨htw, hdw⟩ := takeWhile_middle (fun c : Char => decide (c ≠ '@')) a '@' (b ++ '.' :: c) hmem hat
    subst hl
    rw [validateEmail_eq_of_cons hdw, htw]
    simp only [Bool.and_eq_true, Bool.not_eq_true', List.any_eq_true,
      decide_eq_true_eq, exists_eq_right]
    refine ⟨⟨⟨by simpa using ha, haall⟩, ?_⟩, ?_⟩
    · exact ((run_split_iff (b ++ '.' :: c)).mpr ⟨b, c, rfl, hb, hball, hc, hcall⟩).1
    · exact ((run_split_iff (b ++ '.' :: c)).mpr ⟨b, c, rfl, hb, hball, hc, hcall⟩).2

/-! ### Basic lemmas about validateField -/

theorem validateField_value (st : FormState) (f g : FieldId) :
    (((validateField st f).1).fields g).value = (st.fields g).value := by
  simp only [validateField]
  split <;> simp [Function.update_apply] <;> split <;> simp_all

theorem validateField_snd (st : FormState) (f : FieldId) :
    (validateField st f).2 = (fieldMessage st f).isEmpty := by
  simp only [validateField, fieldMessage]
  split <;> simp_all

theorem validateField_errors_self (st : FormState) (f : FieldId) :
    ((validateField st f).1).errors f = fieldMessage st f := by
  simp only [validateField, fieldMessage]
  split <;> simp_all [List.isEmpty_iff]

theorem validateField_aria_self (st : FormState) (f : FieldId) :
    (((validateField st f).1).fields f).ariaInvalid =
      some (if (fieldMessage st f).isEmpty then falseStr else trueStr) := by
  simp only [validateField, fieldMessage]
  split <;> simp_all

theorem validateField_class_self (st : FormState) (f : FieldId) :
    (((validateField st f).1).fields f).hasErrorClass = !(fieldMessage st f).isEmpty := by
  simp only [validateField, fieldMessage]
  split <;> simp_all

theorem validateField_fields_other (st : FormState) {f g : FieldId} (h : g ≠ f) :
    ((validateField st f).1).fields g = st.fields g := by
  simp only [validateField]
  split <;> simp [Function.update_apply, h]

theorem validateField_errors_other (st : FormState) {f g : FieldId} (h : g ≠ f) :
    ((validateField st f).1).errors g = st.errors g := by
  simp only [validateField]
  split <;> simp [Function.update_apply, h]

theorem validateField_fieldsHidden (st : FormState) (f : FieldId) :
    ((validateField st f).1).fieldsHidden = st.fieldsHidden := by
  simp only [validateField]
  split <;> rfl

theorem validateField_submitHidden (st : FormState) (f : FieldId) :
    ((validateField st f).1).submitHidden = st.submitHidden := by
  simp only [validateField]
  split <;> rfl

theorem validateField_successVisible (st : FormState) (f : FieldId) :
    ((validateField st f).1).successVisible = st.successVisible := by
  simp only [validateField]
  split <;> rfl

theorem validateField_successScrolled (st : FormState) (f : FieldId) :
    ((validateField st f).1).successScrolled = st.successScrolled := by
  simp only [validateField]
  split <;> rfl

theorem validateField_focused (st : FormState) (f : FieldId) :
    ((validateField st f).1).focused = st.focused := by
  simp only [validateField]
  split <;> rfl

theorem fieldMessage_validateField (st : FormState) (g f : FieldId) :
    fieldMessage ((validateField st g).1) f = fieldMessage st f := by
  unfold fieldMessage
  rw [validateField_value]

/-! ### Idempotence of validateField -/

theorem validateField_idem (st : FormState) (f : FieldId) :
    validateField ((validateField st f).1) f = validateField st f := by
  have hv : fieldMessage ((validateField st f).1) f = fieldMessage st f :=
    fieldMessage_validateField st f f
  simp only [fieldMessage] at hv
  by_cases h : (validateFieldMessage (fieldRules f) ((st.fields f).value)).isEmpty
  · simp [validateField, hv, h, Function.update_idem, Function.update_same]
  · simp [validateField, hv, h, Function.update_idem, Function.update_same]

/-! ### Folding validateField over a list of fields -/

/-- ValidateAll is the loop body of `validateForm` factored over an
arbitrary starting accumulator and field list, for reasoning by
induction; `validateForm st = validateAll (st, true) fieldOrder`. -/
def validateAll (acc : FormState × Bool) (fs : List FieldId) : FormState × Bool :=
  fs.foldl
    (fun acc f =>
      let r := validateField acc.1 f
      (r.1, acc.2 && r.2))
    acc

theorem validateForm_eq_validateAll (st : FormState) :
    validateForm st = validateAll (st, true) fieldOrder := rfl

theorem validateField_fields_self (st : FormState) (f : FieldId) :
    ((validateField st f).1).fields f =
      { value := (st.fields f).value,
        ariaInvalid := some (if (fieldMessage st f).isEmpty then falseStr else trueStr),
        hasErrorClass := !(fieldMessage st f).isEmpty } := by
  simp only [validateField, fieldMessage]
  split <;> simp_all

theorem validateAll_value : ∀ (fs : List FieldId) (acc : FormState × Bool) (g : FieldId),
    (((validateAll acc fs).1).fields g).value = ((acc.1).fields g).value := by
  intro fs
  induction fs with
  | nil => intro acc g; rfl
  | cons f fs ih =>
    intro acc g
    have h1 := ih ((validateField acc.1 f).1, acc.2 && (validateField acc.1 f).2) g
    simp only [validateAll, List.foldl_cons] at h1 ⊢
    rw [h1, validateField_value]

theorem validateAll_snd : ∀ (fs : List FieldId) (acc : FormState × Bool),
    (validateAll acc fs).2 = (acc.2 && fs.all fun f => (fieldMessage acc.1 f).isEmpty) := by
  intro fs
  induction fs with
  | nil => intro acc; simp [validateAll]
  | cons f fs ih =>
    intro acc
    have h1 := ih ((validateField acc.1 f).1, acc.2 && (validateField acc.1 f).2)
    simp only [validateAll, List.foldl_cons] at h1 ⊢
    rw [h1]
    simp only [validateField_snd]
    have hmsg : ∀ g, fieldMessage ((validateField acc.1 f).1) g = fieldMessage acc.1 g :=
      fun g => fieldMessage_validateField acc.1 f g
    simp [List.all_cons, Bool.and_assoc, funext hmsg]

theorem validateAll_fields_notmem : ∀ (fs : List FieldId) (acc : FormState × Bool) (g : FieldId),
    g ∉ fs → ((validateAll acc fs).1).fields g = (acc.1).fields g := by
  intro fs
  induction fs with
  | nil => intro acc g _; rfl
  | cons f fs ih =>
    intro acc g hg
    have hgf : g ≠ f := fun h => hg (h ▸ List.mem_cons_self f fs)
    have hgfs : g ∉ fs := fun h => hg (List.mem_cons_of_mem f h)
    have h1 := ih ((validateField acc.1 f).1, acc.2 && (validateField acc.1 f).2) g hgfs
    simp only [validateAll, List.foldl_cons] at h1 ⊢
    rw [h1, validateField_fields_other acc.1 hgf]

theorem validateAll_errors_notmem : ∀ (fs : List FieldId) (acc : FormState × Bool) (g : FieldId),
    g ∉ fs → ((validateAll acc fs).1).errors g = (acc.1).errors g := by
  intro fs
  induction fs with
  | nil => intro acc g _; rfl
  | cons f fs ih =>
    intro acc g hg
    have hgf : g ≠ f := fun h => hg (h ▸ List.mem_cons_self f fs)
    have hgfs : g ∉ fs := fun h => hg (List.mem_cons_of_mem f h)
    have h1 := ih ((validateField acc.1 f).1, acc.2 && (validateField acc.1 f).2) g hgfs
    simp only [validateAll, List.foldl_cons] at h1 ⊢
    rw [h1, validateField_errors_other acc.1 hgf]

theorem validateAll_fields_mem : ∀ (fs : List FieldId) (acc : FormState × Bool) (g : FieldId),
    g ∈ fs → ((validateAll acc fs).1).fields g = ((validateField acc.1 g).1).fields g := by
  intro fs
  induction fs with
  | nil => intro acc g hg; simp at hg
  | cons f fs ih =>
    intro acc g hg
    by_cases hmem : g ∈ fs
    · have h1 := ih ((validateField acc.1 f).1, acc.2 && (validateField acc.1 f).2) g hmem
      simp only [validateAll, List.foldl_cons] at h1 ⊢
      rw [h1, validateField_fields_self, validateField_fields_self]
      rw [validateField_value]
      have : fieldMessage ((validateField acc.1 f).1) g = fieldMessage acc.1 g :=
        fieldMessage_validateField acc.1 f g
      rw [this]
    · have hgf : g = f := by
        rcases List.mem_cons.mp hg with h | h
        · exact h
        · exact absurd h hmem
      subst hgf
      have h1 := validateAll_fields_notmem fs ((validateField acc.1 g).1, acc.2 && (validateField acc.1 g).2) g hmem
      simp only [validateAll, List.foldl_cons] at h1 ⊢
      rw [h1]

theorem validateAll_errors_mem : ∀ (fs : List FieldId) (acc : FormState × Bool) (g : FieldId),
    g ∈ fs → ((validateAll acc fs).1).errors g = fieldMessage acc.1 g := by
  intro fs
  induction fs with
  | nil => intro acc g hg; simp at hg
  | cons f fs ih =>
    intro acc g hg
    by_cases hmem : g ∈ fs
    · have h1 := ih ((validateField acc.1 f).1, acc.2 && (validateField acc.1 f).2) g hmem
      simp only [validateAll, List.foldl_cons] at h1 ⊢
      rw [h1, fieldMessage_validateField]
    · have hgf : g = f := by
        rcases List.mem_cons.mp hg with h | h
        · exact h
        · exact absurd h hmem
      subst hgf
      have h1 := validateAll_errors_notmem fs ((validateField acc.1 g).1, acc.2 && (validateField acc.1 g).2) g hmem
      simp only [validateAll, List.foldl_cons] at h1 ⊢
      rw [h1, validateField_errors_self]

theorem validateAll_misc : ∀ (fs : List FieldId) (acc : FormState × Bool),
    ((validateAll acc fs).1).fieldsHidden = (acc.1).fieldsHidden ∧
    ((validateAll acc fs).1).submitHidden = (acc.1).submitHidden ∧
    ((validateAll acc fs).1).successVisible = (acc.1).successVisible ∧
    ((validateAll acc fs).1).successScrolled = (acc.1).successScrolled ∧
    ((validateAll acc fs).1).focused = (acc.1).focused := by
  intro fs
  induction fs with
  | nil => intro acc; exact ⟨rfl, rfl, rfl, rfl, rfl⟩
  | cons f fs ih =>
    intro acc
    have h1 := ih ((validateField acc.1 f).1, acc.2 && (validateField acc.1 f).2)
    simp only [validateAll, List.foldl_cons] at h1 ⊢
    rw [h1.1, h1.2.1, h1.2.2.1, h1.2.2.2.1, h1.2.2.2.2]
    exact ⟨validateField_fieldsHidden acc.1 f, validateField_submitHidden acc.1 f,
      validateField_successVisible acc.1 f, validateField_successScrolled acc.1 f,
      validateField_focused acc.1 f⟩

/-! ### Spec-side formulation of the rule priority order -/

/-- ValidationResult is the transient result record of the spec data
model: a validity flag and a message. -/
structure ValidationResult where
  valid : Bool
  message : Str
deriving DecidableEq, Repr

/-- RuleKind names the three rule checks. -/
inductive RuleKind
  | required
  | minLength
  | emailFormat
deriving DecidableEq, Repr

/-- Modelled from the spec: rulePriority is the fixed priority order of
the spec — required-check first, then minimum-length, then email
format. -/
def rulePriority : List RuleKind :=
  [.required, .minLength, .emailFormat]

/-- Modelled from the spec: ruleFails decides whether one rule is
applicable and fails on a (trimmed) value. -/
def ruleFails (rules : ValidationRules) (value : Str) : RuleKind → Bool
  | .required => rules.required && value.isEmpty
  | .minLength => minLengthFails rules value
  | .emailFormat => rules.email && !validateEmail value

/-- Modelled from the spec: ruleMessage is the configured message of one
rule (with its default fallback). -/
def ruleMessage (rules : ValidationRules) : RuleKind → Str
  | .required => orDefault rules.requiredMessage requiredDefault
  | .minLength => orDefault rules.minLengthMessage (minLengthDefault (rules.minLength.getD 0))
  | .emailFormat => orDefault rules.emailMessage emailDefault

/-- Modelled from the spec: specValidate applies the rules in priority
order to the trimmed value, short-circuiting at the first failing rule
and returning its configured message, or a valid result with empty
message when all applicable rules pass. -/
def specValidate (rules : ValidationRules) (raw : Str) : ValidationResult :=
  let value := trim raw
  match rulePriority.find? (ruleFails rules value) with
  | some k => { valid := false, message := ruleMessage rules k }
  | none => { valid := true, message := [] }

/-! ### Message nonemptiness -/

theorem orDefault_isEmpty_false (m : Option Str) (d : Str) (hd : d.isEmpty = false) :
    (orDefault m d).isEmpty = false := by
  cases m with
  | none => exact hd
  | some s =>
    by_cases h : s.isEmpty = true
    · simp [orDefault, h, hd]
    · simp only [Bool.not_eq_true] at h
      simp [orDefault, h]

theorem orDefault_of_ne (s d : Str) (h : s.isEmpty = false) : orDefault (some s) d = s := by
  simp [orDefault, h]

theorem minLengthDefault_isEmpty (n : Nat) : (minLengthDefault n).isEmpty = false := by
  have h : Str.mk "Minimum " = 'M' :: Str.mk "inimum " := by decide
  rw [minLengthDefault, h]
  rfl

/-- SpecValidate agrees with the message computation of the source code:
the source result is valid exactly when its message is empty, and the
message is the first failing rule message. -/
theorem specValidate_eq (rules : ValidationRules) (raw : Str) :
    specValidate rules raw =
      { valid := (validateFieldMessage rules raw).isEmpty,
        message := validateFieldMessage rules raw } := by
  have hreq : (orDefault rules.requiredMessage requiredDefault).isEmpty = false :=
    orDefault_isEmpty_false _ _ (by decide)
  have hmin : (orDefault rules.minLengthMessage (minLengthDefault (rules.minLength.getD 0))).isEmpty = false :=
    orDefault_isEmpty_false _ _ (minLengthDefault_isEmpty _)
  have hem : (orDefault rules.emailMessage emailDefault).isEmpty = false :=
    orDefault_isEmpty_false _ _ (by decide)
  simp only [specValidate, validateFieldMessage, rulePriority, List.find?]
  by_cases h1 : (rules.required && (trim raw).isEmpty) = true
  · simp [ruleFails, h1, ruleMessage, hreq]
  · simp only [Bool.not_eq_true] at h1
    by_cases h2 : minLengthFails rules (trim raw) = true
    · simp [ruleFails, h1, h2, ruleMessage, hmin]
    · simp only [Bool.not_eq_true] at h2
      by_cases h3 : (rules.email && !validateEmail (trim raw)) = true
      · simp [ruleFails, h1, h2, h3, ruleMessage, hem]
      · simp only [Bool.not_eq_true] at h3
        simp [ruleFails, h1, h2, h3]

/-! ### Whitespace-only values trim to empty -/

theorem trim_eq_nil_of_all (v : Str) (h : v.all jsWhitespace = true) : trim v = [] := by
  unfold trim
  have h1 : v.dropWhile jsWhitespace = [] := by
    rw [List.dropWhile_eq_nil_iff]
    intro x hx
    exact List.all_eq_true.mp h x hx
  rw [h1]
  rfl

theorem mem_fieldOrder (f : FieldId) : f ∈ fieldOrder := by
  cases f <;> decide

/-! ### Claim theorems: validateField and validateForm -/

/-- C1: for every field binding and every current field value,
validateField applies the rules in the fixed priority order required,
minimum-length, email format, short-circuiting at the first failing rule,
and returns an invalid result carrying that rule configured message, or a
valid result with empty message when all applicable rules pass on the
trimmed value: the source computation coincides with the spec-side
first-failing-rule formulation `specValidate`. -/
theorem c1_validateField_priority (st : FormState) (f : FieldId) :
    specValidate (fieldRules f) ((st.fields f).value) =
      { valid := (validateField st f).2,
        message := ((validateField st f).1).errors f } := by
  rw [validateField_snd, validateField_errors_self]
  simpa [fieldMessage] using specValidate_eq (fieldRules f) ((st.fields f).value)

/-- C2: validateForm validates every one of the five field bindings
unconditionally — afterwards every field carries exactly the element
state and error text its own validateField call would produce — and its
Boolean result is true iff every field validates, false iff at least one
does not. -/
theorem c2_validateForm (st : FormState) :
    ((validateForm st).2 = true ↔ ∀ f, (validateField st f).2 = true) ∧
    ((validateForm st).2 = false ↔ ∃ f, (validateField st f).2 = false) ∧
    (∀ f, ((validateForm st).1).fields f = ((validateField st f).1).fields f ∧
          ((validateForm st).1).errors f = ((validateField st f).1).errors f) := by
  have hsnd : (validateForm st).2 = fieldOrder.all fun f => (fieldMessage st f).isEmpty := by
    rw [validateForm_eq_validateAll, validateAll_snd]
    simp
  have hiff : ((validateForm st).2 = true ↔ ∀ f, (validateField st f).2 = true) := by
    rw [hsnd, List.all_eq_true]
    constructor
    · intro h f
      rw [validateField_snd]
      exact h f (mem_fieldOrder f)
    · intro h f _
      rw [← validateField_snd]
      exact h f
  refine ⟨hiff, ?_, ?_⟩
  · constructor
    · intro h
      by_contra hno
      push_neg at hno
      have : ∀ f, (validateField st f).2 = true := by
        intro f
        have := hno f
        revert this
        cases (validateField st f).2 <;> simp
      rw [hiff.mpr this] at h
      cases h
    · intro ⟨f, hf⟩
      cases hv : (validateForm st).2 with
      | false => rfl
      | true =>
        have := hiff.mp hv f
        rw [hf] at this
        cases this
  · intro f
    constructor
    · rw [validateForm_eq_validateAll,
        validateAll_fields_mem fieldOrder (st, true) f (mem_fieldOrder f)]
    · rw [validateForm_eq_validateAll,
        validateAll_errors_mem fieldOrder (st, true) f (mem_fieldOrder f),
        validateField_errors_self]

/-- C3: the email format check accepts a string iff it consists of a
nonempty non-space non-at run, then the at sign, then a nonempty run,
then a dot, then a nonempty run; in particular a@b.co is accepted while
no-at-sign.com and a@b are rejected. -/
theorem c3_email_format (l : Str) :
    (validateEmail l = true ↔ emailMatches l) ∧
    validateEmail (Str.mk "a@b.co") = true ∧
    validateEmail (Str.mk "no-at-sign.com") = false ∧
    validateEmail (Str.mk "a@b") = false :=
  ⟨validateEmail_iff l, by decide, by decide, by decide⟩

/-- C8: for every field whose rule has required true, validating an empty
or whitespace-only value yields an invalid result whose message is that
field configured required-message. -/
theorem c8_required_message (f : FieldId) (v : Str)
    (hreq : (fieldRules f).required = true) (hws : v.all jsWhitespace = true) :
    ∃ m, (fieldRules f).requiredMessage = some m ∧
      validateFieldMessage (fieldRules f) v = m ∧
      ∀ st : FormState, (st.fields f).value = v →
        (validateField st f).2 = false ∧ ((validateField st f).1).errors f = m := by
  have htrim : trim v = [] := trim_eq_nil_of_all v hws
  have hmsg : validateFieldMessage (fieldRules f) v =
      orDefault (fieldRules f).requiredMessage requiredDefault := by
    simp [validateFieldMessage, htrim, hreq]
  obtain ⟨m, hm, hne⟩ : ∃ m, (fieldRules f).requiredMessage = some m ∧ m.isEmpty = false := by
    cases f <;> exact ⟨_, rfl, by decide⟩
  refine ⟨m, hm, ?_, ?_⟩
  · rw [hmsg, hm, orDefault_of_ne m _ hne]
  · intro st hst
    have hfm : fieldMessage st f = m := by
      unfold fieldMessage
      rw [hst, hmsg, hm, orDefault_of_ne m _ hne]
    exact ⟨by rw [validateField_snd, hfm, hne], by rw [validateField_errors_self, hfm]⟩

/-- C8 witness: the email field with a one-space value. -/
theorem c8_required_message_witness :
    (fieldRules FieldId.email).required = true ∧
    (Str.mk " ").all jsWhitespace = true ∧
    ∃ m, (fieldRules FieldId.email).requiredMessage = some m ∧
      validateFieldMessage (fieldRules FieldId.email) (Str.mk " ") = m ∧
      ∀ st : FormState, (st.fields FieldId.email).value = Str.mk " " →
        (validateField st FieldId.email).2 = false ∧
        ((validateField st FieldId.email).1).errors FieldId.email = m :=
  ⟨by decide, by decide, c8_required_message FieldId.email (Str.mk " ") (by decide) (by decide)⟩

/-- C9: validateField is idempotent — running it a second time on the
unchanged field value produces the same Boolean result and leaves the
whole DOM state (aria-invalid flag, error class, error text) identical. -/
theorem c9_validateField_idempotent (st : FormState) (f : FieldId) :
    validateField ((validateField st f).1) f = validateField st f :=
  validateField_idem st f

/-- C10: validateField and validateForm never modify any field stored
value; validateField changes nothing outside its own field element state
and error text, and leaves every other field element and error text
unchanged. -/
theorem c10_frame (st : FormState) (f : FieldId) :
    (∀ g, (((validateField st f).1).fields g).value = (st.fields g).value) ∧
    (∀ g, g ≠ f → ((validateField st f).1).fields g = st.fields g ∧
                  ((validateField st f).1).errors g = st.errors g) ∧
    ((validateField st f).1).fieldsHidden = st.fieldsHidden ∧
    ((validateField st f).1).submitHidden = st.submitHidden ∧
    ((validateField st f).1).successVisible = st.successVisible ∧
    ((validateField st f).1).successScrolled = st.successScrolled ∧
    ((validateField st f).1).focused = st.focused ∧
    (∀ g, (((validateForm st).1).fields g).value = (st.fields g).value) := by
  refine ⟨fun g => validateField_value st f g,
    fun g hg => ⟨validateField_fields_other st hg, validateField_errors_other st hg⟩,
    validateField_fieldsHidden st f, validateField_submitHidden st f,
    validateField_successVisible st f, validateField_successScrolled st f,
    validateField_focused st f, fun g => ?_⟩
  rw [validateForm_eq_validateAll]
  exact validateAll_value fieldOrder (st, true) g

/-- C10 witness: validating the email field of the all-empty initial
state leaves the name field untouched. -/
theorem c10_frame_witness :
    ((validateField (initialFormState fun _ => []) FieldId.email).1.fields FieldId.name
        = (initialFormState fun _ => []).fields FieldId.name) ∧
    ((validateField (initialFormState fun _ => []) FieldId.email).1.errors FieldId.name
        = (initialFormState fun _ => []).errors FieldId.name) :=
  (c10_frame (initialFormState fun _ => []) FieldId.email).2.1 FieldId.name (by decide)

/-! ### Input suppression -/

theorem setFieldValue_aria (st : FormState) (f : FieldId) (v : Str) :
    ((setFieldValue st f v).fields f).ariaInvalid = (st.fields f).ariaInvalid := by
  simp [setFieldValue, Function.update_same]

theorem setFieldValue_class (st : FormState) (f : FieldId) (v : Str) :
    ((setFieldValue st f v).fields f).hasErrorClass = (st.fields f).hasErrorClass := by
  simp [setFieldValue, Function.update_same]

theorem setFieldValue_errors (st : FormState) (f : FieldId) (v : Str) :
    (setFieldValue st f v).errors = st.errors := rfl

theorem onFieldInput_not_invalid (st : FormState) (f : FieldId)
    (h : (st.fields f).ariaInvalid ≠ some trueStr) : onFieldInput st f = st := by
  simp [onFieldInput, h]

theorem inputEvent_not_invalid (st : FormState) (f : FieldId) (v : Str)
    (h : (st.fields f).ariaInvalid ≠ some trueStr) :
    inputEvent st f v = setFieldValue st f v := by
  unfold inputEvent
  apply onFieldInput_not_invalid
  rw [setFieldValue_aria]
  exact h

/-- C5: the input handler validates a field iff that field is currently
marked invalid, while the blur handler always validates. Consequences: a
field whose aria-invalid attribute is still absent (never blurred, never
marked) shows no validation UI under any sequence of keystrokes, and once
marked invalid every keystroke revalidates against the new value. -/
theorem c5_input_suppression (st : FormState) (f : FieldId) (v : Str) :
    (onFieldBlur st f = (validateField st f).1) ∧
    ((st.fields f).ariaInvalid ≠ some trueStr → inputEvent st f v = setFieldValue st f v) ∧
    ((st.fields f).ariaInvalid = some trueStr →
      inputEvent st f v = (validateField (setFieldValue st f v) f).1) ∧
    ((st.fields f).ariaInvalid = none →
      ∀ vs : List Str,
        (((vs.foldl (fun s w => inputEvent s f w) st).fields f).ariaInvalid = none ∧
         (vs.foldl (fun s w => inputEvent s f w) st).errors f = st.errors f ∧
         ((vs.foldl (fun s w => inputEvent s f w) st).fields f).hasErrorClass
            = (st.fields f).hasErrorClass)) := by
  refine ⟨rfl, fun h => inputEvent_not_invalid st f v h, ?_, ?_⟩
  · intro h
    unfold inputEvent
    rw [onFieldInput]
    rw [setFieldValue_aria]
    simp [h]
  · intro h vs
    induction vs generalizing st with
    | nil => exact ⟨h, rfl, rfl⟩
    | cons w ws ih =>
      have hne : (st.fields f).ariaInvalid ≠ some trueStr := by
        rw [h]
        intro hc
        cases hc
      have hstep : inputEvent st f w = setFieldValue st f w :=
        inputEvent_not_invalid st f w hne
      have haria : ((setFieldValue st f w).fields f).ariaInvalid = none := by
        rw [setFieldValue_aria]
        exact h
      have hih := ih (setFieldValue st f w) haria
      simp only [List.foldl_cons, hstep]
      refine ⟨hih.1, ?_, ?_⟩
      · rw [hih.2.1, setFieldValue_errors]
      · rw [hih.2.2, setFieldValue_class]

/-- C5 witness: with no aria-invalid attribute, a keystroke only changes
the value; after the empty email field was validated once (marked
invalid), a keystroke revalidates. -/
theorem c5_input_suppression_witness :
    (inputEvent (initialFormState fun _ => []) FieldId.email (Str.mk "a")
       = setFieldValue (initialFormState fun _ => []) FieldId.email (Str.mk "a")) ∧
    (inputEvent ((validateField (initialFormState fun _ => []) FieldId.email).1)
        FieldId.email (Str.mk "a")
       = (validateField
            (setFieldValue ((validateField (initialFormState fun _ => []) FieldId.email).1)
              FieldId.email (Str.mk "a")) FieldId.email).1) ∧
    ((([Str.mk "a", Str.mk "ab"]).foldl
        (fun s w => inputEvent s FieldId.email w) (initialFormState fun _ => [])).errors
          FieldId.email = (initialFormState fun _ => []).errors FieldId.email) :=
  ⟨(c5_input_suppression (initialFormState fun _ => []) FieldId.email (Str.mk "a")).2.1
      (by decide),
   (c5_input_suppression ((validateField (initialFormState fun _ => []) FieldId.email).1)
      FieldId.email (Str.mk "a")).2.2.1 (by decide),
   ((c5_input_suppression (initialFormState fun _ => []) FieldId.email (Str.mk "a")).2.2.2
      (by decide) [Str.mk "a", Str.mk "ab"]).2.1⟩

/-! ### Submit handling and the two-phase machine -/

theorem validateForm_misc (st : FormState) :
    ((validateForm st).1).fieldsHidden = st.fieldsHidden ∧
    ((validateForm st).1).submitHidden = st.submitHidden ∧
    ((validateForm st).1).successVisible = st.successVisible ∧
    ((validateForm st).1).successScrolled = st.successScrolled ∧
    ((validateForm st).1).focused = st.focused := by
  rw [validateForm_eq_validateAll]
  exact validateAll_misc fieldOrder (st, true)

theorem validateForm_aria (st : FormState) (g : FieldId) :
    (((validateForm st).1).fields g).ariaInvalid =
      some (if (fieldMessage st g).isEmpty then falseStr else trueStr) := by
  rw [validateForm_eq_validateAll,
    validateAll_fields_mem fieldOrder (st, true) g (mem_fieldOrder g),
    validateField_fields_self]

theorem find?_congr {α : Type} (p q : α → Bool) :
    ∀ l : List α, (∀ x ∈ l, p x = q x) → l.find? p = l.find? q := by
  intro l
  induction l with
  | nil => intro _; rfl
  | cons x xs ih =>
    intro h
    have hx : p x = q x := h x (List.mem_cons_self x xs)
    have hxs := ih fun y hy => h y (List.mem_cons_of_mem x hy)
    by_cases hp : p x = true
    · rw [List.find?_cons_of_pos _ hp, List.find?_cons_of_pos _ (hx ▸ hp)]
    · have hp' : p x = false := by revert hp; cases p x <;> simp
      rw [List.find?_cons_of_neg _ (by rw [hp']; simp),
        List.find?_cons_of_neg _ (by rw [← hx, hp']; simp)]
      exact hxs

theorem firstInvalid_after_validateForm (st : FormState) :
    firstInvalidField ((validateForm st).1) =
      fieldOrder.find? (fun f => !(fieldMessage st f).isEmpty) := by
  unfold firstInvalidField
  apply find?_congr
  intro f _
  rw [validateForm_aria]
  by_cases h : (fieldMessage st f).isEmpty = true
  · simp only [h, if_true]
    decide
  · simp only [Bool.not_eq_true] at h
    simp only [h, Bool.false_eq_true, if_false]
    decide

theorem handleFormSubmit_snd (st : FormState) : (handleFormSubmit st).2 = true := by
  unfold handleFormSubmit
  by_cases hv : (validateForm st).2 = true
  · rw [if_pos hv]
  · rw [if_neg hv]

theorem handleFormSubmit_valid (st : FormState) (h : (validateForm st).2 = true) :
    (handleFormSubmit st).1 = showSuccessMessage ((validateForm st).1) := by
  unfold handleFormSubmit
  rw [if_pos h]

theorem handleFormSubmit_invalid_flags (st : FormState) (h : (validateForm st).2 = false) :
    ((handleFormSubmit st).1).successVisible = st.successVisible ∧
    ((handleFormSubmit st).1).fieldsHidden = st.fieldsHidden ∧
    ((handleFormSubmit st).1).submitHidden = st.submitHidden := by
  have hm := validateForm_misc st
  unfold handleFormSubmit
  rw [if_neg (by rw [h]; exact Bool.false_ne_true)]
  cases hfi : firstInvalidField ((validateForm st).1) with
  | none =>
    simp only [hfi]
    exact ⟨hm.2.2.1, hm.1, hm.2.1⟩
  | some f =>
    simp only [hfi]
    exact ⟨hm.2.2.1, hm.1, hm.2.1⟩

theorem handleFormSubmit_invalid_focus (st : FormState) (h : (validateForm st).2 = false) :
    ∃ f0, fieldOrder.find? (fun f => !(fieldMessage st f).isEmpty) = some f0 ∧
      ((handleFormSubmit st).1).focused = some f0 := by
  have hall : (validateForm st).2 = fieldOrder.all fun f => (fieldMessage st f).isEmpty := by
    rw [validateForm_eq_validateAll, validateAll_snd]
    simp
  have hfalse : (fieldOrder.all fun f => (fieldMessage st f).isEmpty) = false := by
    rw [← hall]
    exact h
  have hex : ∃ f ∈ fieldOrder, (!(fieldMessage st f).isEmpty) = true := by
    by_contra hno
    push_neg at hno
    have : fieldOrder.all (fun f => (fieldMessage st f).isEmpty) = true := by
      rw [List.all_eq_true]
      intro f hf
      have := hno f hf
      revert this
      cases (fieldMessage st f).isEmpty <;> simp
    rw [this] at hfalse
    cases hfalse
  have hsome : (fieldOrder.find? (fun f => !(fieldMessage st f).isEmpty)).isSome = true := by
    rw [List.find?_isSome]
    exact hex
  obtain ⟨f0, hf0⟩ := Option.isSome_iff_exists.mp hsome
  refine ⟨f0, hf0, ?_⟩
  have hfi : firstInvalidField ((validateForm st).1) = some f0 := by
    rw [firstInvalid_after_validateForm]
    exact hf0
  unfold handleFormSubmit
  rw [if_neg (by rw [h]; exact Bool.false_ne_true)]
  simp only [hfi]

theorem step_blur_successVisible (st : FormState) (f : FieldId) :
    (step st (FormEvent.blur f)).successVisible = st.successVisible :=
  validateField_successVisible st f

theorem step_input_successVisible (st : FormState) (f : FieldId) (v : Str) :
    (step st (FormEvent.input f v)).successVisible = st.successVisible := by
  simp only [step, inputEvent, onFieldInput]
  split
  · rw [validateField_successVisible]
    rfl
  · rfl

theorem step_submit_successVisible (st : FormState) :
    (step st FormEvent.submit).successVisible = ((validateForm st).2 || st.successVisible) := by
  simp only [step]
  by_cases hv : (validateForm st).2 = true
  · rw [handleFormSubmit_valid st hv, hv]
    rfl
  · have hv' : (validateForm st).2 = false := by revert hv; cases (validateForm st).2 <;> simp
    rw [(handleFormSubmit_invalid_flags st hv').1, hv']
    simp

theorem phaseOf_submitted_iff (st : FormState) :
    phaseOf st = Phase.submitted ↔ st.successVisible = true := by
  unfold phaseOf
  by_cases h : st.successVisible = true <;> simp [h]

theorem phaseOf_editing_iff (st : FormState) :
    phaseOf st = Phase.editing ↔ st.successVisible = false := by
  unfold phaseOf
  by_cases h : st.successVisible = true <;> simp [h]

/-- SampleValidValues is a concrete all-valid assignment of the five
fields, used to instantiate theorems at a concrete input. -/
def sampleValidValues : FieldId → Str
  | .email => Str.mk "a@b.co"
  | .name => Str.mk "ab"
  | .role => Str.mk "dev"
  | .experience => Str.mk "3"
  | .goal => Str.mk "learn"

/-- C4: the form phase is a one-way two-state machine. The initial state
is Editing; from Editing, a step reaches Submitted exactly on a submit
event with validateForm true (which hides the field containers and the
submit control, reveals the success element and scrolls to it); and from
Submitted no sequence of blur, input or submit events leaves Submitted. -/
theorem c4_one_way_machine :
    (∀ vals, phaseOf (initialFormState vals) = Phase.editing) ∧
    (∀ st e, phaseOf st = Phase.editing →
      (phaseOf (step st e) = Phase.submitted ↔
        e = FormEvent.submit ∧ (validateForm st).2 = true)) ∧
    (∀ st, (validateForm st).2 = true →
      (step st FormEvent.submit).fieldsHidden = true ∧
      (step st FormEvent.submit).submitHidden = true ∧
      (step st FormEvent.submit).successVisible = true ∧
      (step st FormEvent.submit).successScrolled = true) ∧
    (∀ st (evs : List FormEvent), phaseOf st = Phase.submitted →
      phaseOf (evs.foldl step st) = Phase.submitted) := by
  refine ⟨fun vals => rfl, ?_, ?_, ?_⟩
  · intro st e hed
    have hsv : st.successVisible = false := (phaseOf_editing_iff st).mp hed
    rw [phaseOf_submitted_iff]
    cases e with
    | blur f =>
      rw [step_blur_successVisible, hsv]
      simp
    | input f v =>
      rw [step_input_successVisible, hsv]
      simp
    | submit =>
      rw [step_submit_successVisible, hsv]
      simp
  · intro st h
    have hst : step st FormEvent.submit = showSuccessMessage ((validateForm st).1) :=
      handleFormSubmit_valid st h
    rw [hst]
    exact ⟨rfl, rfl, rfl, rfl⟩
  · intro st evs
    induction evs generalizing st with
    | nil => exact fun h => h
    | cons e es ih =>
      intro h
      have hsv : st.successVisible = true := (phaseOf_submitted_iff st).mp h
      have hnext : (step st e).successVisible = true := by
        cases e with
        | blur f => rw [step_blur_successVisible, hsv]
        | input f v => rw [step_input_successVisible, hsv]
        | submit => rw [step_submit_successVisible, hsv]; simp
      exact ih (step st e) ((phaseOf_submitted_iff (step st e)).mpr hnext)

/-- C4 witness: a concrete all-valid submission enters Submitted, hides
the fields and the submit control, and stays Submitted under further
events. -/
theorem c4_one_way_machine_witness :
    phaseOf (initialFormState sampleValidValues) = Phase.editing ∧
    phaseOf (step (initialFormState sampleValidValues) FormEvent.submit) = Phase.submitted ∧
    (step (initialFormState sampleValidValues) FormEvent.submit).fieldsHidden = true ∧
    (step (initialFormState sampleValidValues) FormEvent.submit).submitHidden = true ∧
    phaseOf ([FormEvent.blur FieldId.email, FormEvent.input FieldId.email [],
        FormEvent.submit].foldl step
      (step (initialFormState sampleValidValues) FormEvent.submit)) = Phase.submitted := by
  have h := c4_one_way_machine
  have h1 : phaseOf (initialFormState sampleValidValues) = Phase.editing :=
    h.1 sampleValidValues
  have hv : (validateForm (initialFormState sampleValidValues)).2 = true := by decide
  have h2 : phaseOf (step (initialFormState sampleValidValues) FormEvent.submit)
      = Phase.submitted :=
    (h.2.1 (initialFormState sampleValidValues) FormEvent.submit h1).mpr ⟨rfl, hv⟩
  have h3 := h.2.2.1 (initialFormState sampleValidValues) hv
  exact ⟨h1, h2, h3.1, h3.2.1, h.2.2.2 _ _ h2⟩

/-- C6: on submit the default action is always suppressed; when
validateForm is false, focus moves to the first field in declaration
order whose message is nonempty, nothing else changes, the success
element stays hidden and the phase stays Editing. -/
theorem c6_invalid_submit (st : FormState) :
    (handleFormSubmit st).2 = true ∧
    ((validateForm st).2 = false →
      (∃ f0, fieldOrder.find? (fun f => !(fieldMessage st f).isEmpty) = some f0 ∧
        ((handleFormSubmit st).1).focused = some f0) ∧
      ((handleFormSubmit st).1).successVisible = st.successVisible ∧
      ((handleFormSubmit st).1).fieldsHidden = st.fieldsHidden ∧
      ((handleFormSubmit st).1).submitHidden = st.submitHidden ∧
      (phaseOf st = Phase.editing → phaseOf ((handleFormSubmit st).1) = Phase.editing)) := by
  refine ⟨handleFormSubmit_snd st, fun h => ?_⟩
  have hfl := handleFormSubmit_invalid_flags st h
  refine ⟨handleFormSubmit_invalid_focus st h, hfl.1, hfl.2.1, hfl.2.2, fun he => ?_⟩
  rw [phaseOf_editing_iff] at he ⊢
  rw [hfl.1]
  exact he

/-- C6 witness: submitting the all-empty form moves focus to the email
field (the first invalid one) and stays in Editing. -/
theorem c6_invalid_submit_witness :
    (handleFormSubmit (initialFormState fun _ => [])).2 = true ∧
    ((handleFormSubmit (initialFormState fun _ => [])).1).focused = some FieldId.email ∧
    ((handleFormSubmit (initialFormState fun _ => [])).1).successVisible = false ∧
    phaseOf ((handleFormSubmit (initialFormState fun _ => [])).1) = Phase.editing := by
  have h := c6_invalid_submit (initialFormState fun _ => [])
  have hinv : (validateForm (initialFormState fun _ => [])).2 = false := by decide
  have h2 := h.2 hinv
  obtain ⟨f0, hf0, hfoc⟩ := h2.1
  have hfind : fieldOrder.find?
      (fun f => !(fieldMessage (initialFormState fun _ => []) f).isEmpty)
        = some FieldId.email := by decide
  have hf0e : f0 = FieldId.email := by
    rw [hfind] at hf0
    exact (Option.some_inj.mp hf0).symm
  refine ⟨h.1, ?_, ?_, ?_⟩
  · rw [hfoc, hf0e]
  · rw [h2.2.1]
    rfl
  · exact h2.2.2.2.2 rfl

/-- C7 counterexample: with the form present but the email field element
absent, initialization does not log-and-stop; the unguarded
`field.addEventListener` call throws, so the claimed defensive no-op does
not happen. -/
theorem c7_counterexample :
    initFormValidation ⟨true, fun _ => false, fun _ => true⟩ = InitOutcome.threwTypeError ∧
    InitOutcome.threwTypeError ≠ InitOutcome.warnedNoForm := by
  exact ⟨rfl, by decide⟩

/-- C7 amended: only the form element is guarded — if it is absent the
engine warns and stops without an exception; if the form is present and
any field element is absent, initialization throws a TypeError; if the
form and all field elements are present, initialization completes, and
absent error elements are never detected at initialization (the outcome
does not depend on them). -/
theorem c7_init_guard (doc : PageDocument) :
    (doc.hasForm = false → initFormValidation doc = InitOutcome.warnedNoForm) ∧
    (doc.hasForm = true → (∃ f, doc.hasField f = false) →
      initFormValidation doc = InitOutcome.threwTypeError) ∧
    (doc.hasForm = true → (∀ f, doc.hasField f = true) →
      initFormValidation doc = InitOutcome.completed) ∧
    (∀ he, initFormValidation { doc with hasErrorElement := he } = initFormValidation doc) := by
  refine ⟨fun h => ?_, fun h hf => ?_, fun h hf => ?_, fun he => rfl⟩
  · simp [initFormValidation, h]
  · obtain ⟨f, hf0⟩ := hf
    have hall : (fieldOrder.all fun f => doc.hasField f) = false := by
      by_contra hc
      have htrue : (fieldOrder.all fun f => doc.hasField f) = true := by
        revert hc
        cases fieldOrder.all fun f => doc.hasField f <;> simp
      have := List.all_eq_true.mp htrue f (mem_fieldOrder f)
      rw [hf0] at this
      cases this
    simp [initFormValidation, h, hall]
  · have hall : (fieldOrder.all fun f => doc.hasField f) = true :=
      List.all_eq_true.mpr fun f _ => hf f
    simp [initFormValidation, h, hall]

/-- C7 amended witness: the three concrete document shapes. -/
theorem c7_init_guard_witness :
    initFormValidation ⟨false, fun _ => true, fun _ => true⟩ = InitOutcome.warnedNoForm ∧
    initFormValidation ⟨true, fun _ => false, fun _ => true⟩ = InitOutcome.threwTypeError ∧
    initFormValidation ⟨true, fun _ => true, fun _ => false⟩ = InitOutcome.completed :=
  ⟨(c7_init_guard ⟨false, fun _ => true, fun _ => true⟩).1 rfl,
   (c7_init_guard ⟨true, fun _ => false, fun _ => true⟩).2.1 rfl ⟨FieldId.email, rfl⟩,
   (c7_init_guard ⟨true, fun _ => true, fun _ => false⟩).2.2.1 rfl fun _ => rfl⟩
